import Mathlib

/-!
Shallow embedding of the bitcoinjs-mcp-server dispatch/validation layer.

Each definition below is translated from the TypeScript source of the
repository (src/utils/bitcoin.ts, src/tools/address.ts,
src/tools/transaction.ts, the PSBT tool module and the utility tool
module).  Cryptographic and serialization work that the handlers delegate
to the external bitcoinjs-lib library is abstracted: the embeddings model
the repository's own validation and arithmetic, taking already-parsed
library data (byte lists, parsed transactions) as input where the source
calls into the library.

JavaScript-specific behaviours that the source relies on are modelled
explicitly: `Buffer.from(s, 'hex')` truncation at an unpaired trailing
digit (`jsHexDecode`), `parseInt(s, 10)` prefix parsing (`jsParseIntDec`),
the falsiness of the empty string in `x || 'default'` (`jsOrDefault`),
and ASCII case folding for `toLowerCase` (`jsToLower`).
-/

namespace BitcoinMCP

/-- JavaScript `x || dflt` for an optional string argument: `undefined`
and the empty string are both falsy and select the default. -/
def jsOrDefault (x : Option String) (dflt : String) : String :=
  match x with
  | none => dflt
  | some s => if s = "" then dflt else s

/-- ASCII lowercasing of one character, as `String.prototype.toLowerCase`
acts on the ASCII range (the only range relevant to network names). -/
def charLower (c : Char) : Char :=
  if 65 ≤ c.toNat ∧ c.toNat ≤ 90 then Char.ofNat (c.toNat + 32) else c

/-- ASCII `toLowerCase` on a string. -/
def jsToLower (s : String) : String :=
  String.mk (s.data.map charLower)

/-- Membership of a character in the regex class `[0-9a-fA-F]`. -/
def isHexDigit (c : Char) : Bool :=
  (48 ≤ c.toNat && c.toNat ≤ 57) ||
  (97 ≤ c.toNat && c.toNat ≤ 102) ||
  (65 ≤ c.toNat && c.toNat ≤ 70)

/-- From src/utils/bitcoin.ts: `isValidHex(hex)` tests
`/^[0-9a-fA-F]*$/` and evenness of the length. -/
def isValidHex (hex : String) : Bool :=
  hex.data.all isHexDigit && hex.length % 2 == 0

/-- Network parameter set handed out by the resolver.  The field values
are the bitcoinjs-lib constants for the three supported networks. -/
structure Network where
  bech32 : String
  pubKeyHash : Nat
  scriptHash : Nat
  wif : Nat
  deriving Repr, DecidableEq

/-- `bitcoin.networks.bitcoin` from bitcoinjs-lib. -/
def mainnetParams : Network := ⟨"bc", 0x00, 0x05, 0x80⟩

/-- `bitcoin.networks.testnet` from bitcoinjs-lib. -/
def testnetParams : Network := ⟨"tb", 0x6f, 0xc4, 0xef⟩

/-- `bitcoin.networks.regtest` from bitcoinjs-lib. -/
def regtestParams : Network := ⟨"bcrt", 0x6f, 0xc4, 0xef⟩

/-- From src/utils/bitcoin.ts: `getNetworkConfig(networkName)` switches on
the lowercased name and throws `Unsupported network: ...` otherwise. -/
def getNetworkConfig (networkName : String) : Except String Network :=
  if jsToLower networkName = "mainnet" then .ok mainnetParams
  else if jsToLower networkName = "testnet" then .ok testnetParams
  else if jsToLower networkName = "regtest" then .ok regtestParams
  else .error ("Unsupported network: " ++ networkName)

/-- From src/utils/bitcoin.ts: `validateNetwork(network)` checks
membership of the lowercased name in `['mainnet','testnet','regtest']`. -/
def validateNetwork (network : String) : Bool :=
  (["mainnet", "testnet", "regtest"] : List String).contains (jsToLower network)

/-! ### Tool registries (src/index.ts `setupTools` merges the four lists) -/

/-- Tool names declared by `addressTools` in src/tools/address.ts,
in registry order. -/
def addressToolNames : List String :=
  ["generate_address", "validate_address", "decode_address", "address_from_script"]

/-- Tool names declared by `transactionTools` in src/tools/transaction.ts. -/
def transactionToolNames : List String :=
  ["create_transaction", "decode_transaction", "sign_transaction",
   "estimate_transaction_fee", "broadcast_transaction"]

/-- Tool names declared by `psbtTools` in the PSBT tool module. -/
def psbtToolNames : List String :=
  ["create_psbt", "decode_psbt", "sign_psbt", "finalize_psbt",
   "combine_psbts", "update_psbt"]

/-- Tool names declared by `utilityTools` in the utility tool module. -/
def utilityToolNames : List String :=
  ["generate_keypair", "create_multisig", "compile_script", "hash_message",
   "derive_child_key", "verify_message"]

/-- The merged list built by `setupTools` in src/index.ts. -/
def allToolNames : List String :=
  addressToolNames ++ transactionToolNames ++ psbtToolNames ++ utilityToolNames

/-! ### PSBT input-format routing (PSBT tool module) -/

/-- Membership of a character in the regex class `[A-Za-z0-9+/]`. -/
def isBase64Char (c : Char) : Bool :=
  (65 ≤ c.toNat && c.toNat ≤ 90) ||
  (97 ≤ c.toNat && c.toNat ≤ 122) ||
  (48 ≤ c.toNat && c.toNat ≤ 57) ||
  c == '+' || c == '/'

/-- Whether a string matches `/^[A-Za-z0-9+/]*={0,2}$/`: at most two
trailing `=` characters, everything before them in `[A-Za-z0-9+/]`. -/
def base64ShapeMatch (s : String) : Bool :=
  let rev := s.data.reverse
  if (rev.takeWhile (fun c => c == '=')).length ≤ 2 then
    (rev.dropWhile (fun c => c == '=')).all isBase64Char
  else false

/-- The two parsing branches of `decodePSBT`, `signPSBT`, `finalizePSBT`,
`combinePSBTs` and `updatePSBT`. -/
inductive PsbtBranch where
  | base64
  | hex
  deriving Repr, DecidableEq

/-- The branch selection shared by the five PSBT handlers: if the input
matches the base64 pattern it is parsed with `Psbt.fromBase64`, otherwise
with `Psbt.fromHex`. -/
def psbtParseBranch (s : String) : PsbtBranch :=
  if base64ShapeMatch s then .base64 else .hex

/-! ### Hex decoding as performed by `Buffer.from(s, 'hex')` -/

/-- Value of one hex digit, `none` for any other character. -/
def hexDigitVal (c : Char) : Option Nat :=
  if 48 ≤ c.toNat ∧ c.toNat ≤ 57 then some (c.toNat - 48)
  else if 97 ≤ c.toNat ∧ c.toNat ≤ 102 then some (c.toNat - 87)
  else if 65 ≤ c.toNat ∧ c.toNat ≤ 70 then some (c.toNat - 55)
  else none

/-- Node's `Buffer.from(s, 'hex')`: decode two characters per byte,
stopping at the first invalid pair; a trailing unpaired digit is
dropped. -/
def jsHexDecodePairs : List Char → List Nat
  | c1 :: c2 :: rest =>
    match hexDigitVal c1, hexDigitVal c2 with
    | some hi, some lo => (16 * hi + lo) :: jsHexDecodePairs rest
    | _, _ => []
  | _ => []

/-- Node's `Buffer.from(s, 'hex')` on a string. -/
def jsHexDecode (s : String) : List Nat :=
  jsHexDecodePairs s.data

/-! ### estimate_transaction_fee (src/tools/transaction.ts) -/

/-- `Math.ceil(a / b)` for integers `a` and positive `b`. -/
def ceilDiv (a b : Int) : Int := Int.fdiv (a + b - 1) b

/-- Result shape of the `estimate_transaction_fee` handler (without the
formatted string, which is presentation only). -/
structure FeeEstimate where
  size : Int
  vsize : Int
  weight : Int
  fee : Int
  feeRate : Int
  deriving Repr, DecidableEq

/-- `estimateTransactionFee` from src/tools/transaction.ts, restricted to
integer arguments (the claim's scope).  `Math.ceil(weight / 4)` is
`ceilDiv weight 4`; `Math.ceil(vsize * feeRate)` is `vsize * feeRate`
itself, since a product of integers is an integer. -/
def estimateTransactionFee (inputs outputs feeRate : Int)
    (inputType : Option String) : Except String FeeEstimate :=
  if inputs ≤ 0 ∨ outputs ≤ 0 then
    .error "Inputs and outputs must be positive numbers"
  else if feeRate ≤ 0 then
    .error "Fee rate must be positive"
  else
    let ty := jsOrDefault inputType "segwit"
    let hasWitness := ty == "segwit" || ty == "taproot"
    let sizes : Option (Int × Int) :=
      if ty = "legacy" then some (148, 0)
      else if ty = "segwit" then some (68, 107)
      else if ty = "taproot" then some (68, 65)
      else none
    match sizes with
    | none => .error ("Unknown input type: " ++ ty)
    | some (inputSize, witnessSize) =>
      let outputSize : Int := 34
      let baseSize : Int := 10
      let size := baseSize + inputs * inputSize + outputs * outputSize
      let weight :=
        if hasWitness then (size - inputs * witnessSize) * 4 + (inputs * witnessSize + 2)
        else size * 4
      let vsize := ceilDiv weight 4
      let fee := vsize * feeRate
      let retSize :=
        if hasWitness then size - inputs * witnessSize + ceilDiv (inputs * witnessSize) 4
        else size
      .ok ⟨retSize, vsize, weight, fee, feeRate⟩

/-! ### broadcast_transaction validation (src/tools/transaction.ts) -/

/-- One parsed transaction input as `validateTransaction` sees it:
`txid` is the canonical hex rendering of the reversed 32-byte hash
(always 64 characters for a transaction parsed by the library), `vout`
the previous output index. -/
structure TxIn where
  txid : String
  vout : Nat
  deriving Repr, DecidableEq

/-- One parsed transaction output. -/
structure TxOut where
  value : Int
  deriving Repr, DecidableEq

/-- A transaction already parsed by `bitcoin.Transaction.fromHex`
(external library); `validateTransaction` only reads inputs and
outputs. -/
structure ParsedTx where
  ins : List TxIn
  outs : List TxOut
  deriving Repr, DecidableEq

/-- The input identifier `txidHex + ':' + index` the code builds to
detect duplicate inputs. -/
def mkInputId (i : TxIn) : String :=
  i.txid ++ ":" ++ Nat.repr i.vout

/-- 21 million BTC in satoshis, the supply cap used by the check. -/
def MAX_MONEY : Int := 21000000 * 100000000

/-- The check section of `validateTransaction`: collect the error
messages of all five checks in source order (no inputs, no outputs,
duplicate inputs via a `Set` of the id strings, one message per negative
output value, supply-cap overflow), and report `valid` iff the list is
empty. -/
def validateParsedTx (tx : ParsedTx) : Bool × List String :=
  let errors : List String :=
    (if tx.ins.length = 0 then ["Transaction has no inputs"] else []) ++
    (if tx.outs.length = 0 then ["Transaction has no outputs"] else []) ++
    (if (tx.ins.map mkInputId).Nodup then [] else ["Transaction has duplicate inputs"]) ++
    ((tx.outs.filter (fun o => o.value < 0)).map (fun _ => "Negative output value found")) ++
    (if (tx.outs.map TxOut.value).sum > MAX_MONEY then
      ["Total output exceeds maximum Bitcoin supply"] else [])
  (errors.isEmpty, errors)

/-- Reference decimal-digit rendering of a natural number, used to
characterize core's fuelled `Nat.toDigits`. -/
def decDigits (n : Nat) : List Char :=
  if n < 10 then [Nat.digitChar n]
  else decDigits (n / 10) ++ [Nat.digitChar (n % 10)]
termination_by n
decreasing_by
  exact Nat.div_lt_self (by omega) (by omega)

/-! ### create_multisig (utility tool module) -/

/-- The per-key format test of `createMultisig`: the regex
`/^[0-9a-fA-F]+$/` (nonempty, hex digits only). -/
def pubkeyFormatOk (k : String) : Bool :=
  !k.data.isEmpty && k.data.all isHexDigit

/-- One supplied key passes both `createMultisig` checks: regex format
and a decoded `Buffer` length of exactly 33 or 65 bytes. -/
def pubkeyOk (k : String) : Bool :=
  pubkeyFormatOk k &&
  ((jsHexDecode k).length == 33 || (jsHexDecode k).length == 65)

/-- The validated prefix of the `createMultisig` result: the values the
handler reports back (`m`, `n`) and the decoded keys it hands to
`bitcoin.payments.p2ms`. -/
structure MultisigValidated where
  m : Int
  n : Nat
  pubkeys : List (List Nat)
  deriving Repr, DecidableEq

/-- The `publicKeys.map` validation loop of `createMultisig`: reject a
key that fails the hex regex, then reject a decoded length other than
33 or 65 bytes (index interpolation in the messages is omitted). -/
def validatePubkeys : List String → Except String (List (List Nat))
  | [] => .ok []
  | k :: rest =>
    if !(pubkeyFormatOk k) then
      .error "Invalid public key format: not hex"
    else
      let pubkey := jsHexDecode k
      if pubkey.length != 33 && pubkey.length != 65 then
        .error "Invalid public key length: expected 33 or 65"
      else
        match validatePubkeys rest with
        | .ok pks => .ok (pubkey :: pks)
        | .error e => .error e

/-- The validation layer of `createMultisig` (everything the handler
itself checks before delegating to `bitcoin.payments.p2ms` and the
address constructors, which are external library calls). -/
def createMultisigChecked (m : Int) (publicKeys : List String)
    (network addressType : Option String) : Except String MultisigValidated :=
  let networkName := jsOrDefault network "testnet"
  if validateNetwork networkName = false then
    .error ("Invalid network: " ++ networkName)
  else
    let aType := jsOrDefault addressType "p2sh"
    if m ≤ 0 ∨ (publicKeys.length : Int) < m then
      .error "Invalid m value: must be between 1 and number of public keys"
    else if publicKeys.length < 1 ∨ 15 < publicKeys.length then
      .error "Invalid number of public keys: must be between 1 and 15"
    else
      match validatePubkeys publicKeys with
      | .error e => .error e
      | .ok pks =>
        if aType = "p2sh" ∨ aType = "p2wsh" ∨ aType = "p2sh-p2wsh" then
          .ok ⟨m, publicKeys.length, pks⟩
        else
          .error ("Unsupported address type: " ++ aType)

/-- A 67-character hex string: the compressed secp256k1 generator point
(66 hex characters) with one extra trailing digit.  `Buffer.from`
decodes it to the 33-byte generator point, which
`bitcoin.payments.p2ms` accepts. -/
def generatorKeyOdd : String :=
  "0279BE667EF9DCBBAC55A06295CE870B07029BFCDF2DCE28D959F2815B16F817980"

/-! ### derive_child_key path parsing (utility tool module) -/

/-- The apostrophe character, U+0027. -/
def singleQuote : Char := Char.ofNat 39

/-- Whitespace skipped by JavaScript `parseInt` (ASCII portion). -/
def jsWhitespace (c : Char) : Bool :=
  c == ' ' || c == Char.ofNat 9 || c == Char.ofNat 10 ||
  c == Char.ofNat 11 || c == Char.ofNat 12 || c == Char.ofNat 13

/-- Decimal digit test for `parseInt`. -/
def isDecDigit (c : Char) : Bool :=
  48 ≤ c.toNat && c.toNat ≤ 57

/-- Numeric value of a run of decimal digits. -/
def decDigitsVal (digits : List Char) : Nat :=
  digits.foldl (fun a c => 10 * a + (c.toNat - 48)) 0

/-- JavaScript `parseInt(s, 10)`: skip leading whitespace, read an
optional sign and then the longest prefix of decimal digits; `none`
(`NaN`) if that prefix is empty. -/
def jsParseIntDec (s : String) : Option Int :=
  let cs := s.data.dropWhile jsWhitespace
  match cs with
  | c :: rest =>
    if c == '-' then
      let digits := rest.takeWhile isDecDigit
      if digits.isEmpty then none else some (-(decDigitsVal digits : Int))
    else if c == '+' then
      let digits := rest.takeWhile isDecDigit
      if digits.isEmpty then none else some (decDigitsVal digits : Int)
    else
      let digits := cs.takeWhile isDecDigit
      if digits.isEmpty then none else some (decDigitsVal digits : Int)
  | [] => none

/-- `s.endsWith(c)` for a one-character suffix. -/
def lastIs (s : String) (c : Char) : Bool :=
  match s.data.getLast? with
  | some d => d == c
  | none => false

/-- One segment of the loop body of `deriveChildKey`: detect a trailing
`'` or `h`, strip it (`segment.slice(0, -1)`), `parseInt` the rest in
base 10, reject `NaN`, negative and `≥ 0x80000000` indices, and add
`0x80000000` for hardened segments. -/
def parsePathSegment (segment : String) : Option Nat :=
  let hardened := lastIs segment singleQuote || lastIs segment 'h'
  let core := if hardened then String.mk segment.data.dropLast else segment
  match jsParseIntDec core with
  | none => none
  | some index =>
    if index < 0 ∨ 0x80000000 ≤ index then none
    else some (if hardened then index.toNat + 0x80000000 else index.toNat)

/-- `derivationPath.replace(/^m\//, '')`: strip one literal leading
`m/`. -/
def stripMPrefix (p : String) : String :=
  match p.data with
  | c1 :: c2 :: rest => if c1 == 'm' && c2 == '/' then String.mk rest else p
  | _ => p

/-- Helper for `String.prototype.split('/')`. -/
def splitSlashAux : List Char → List Char → List String
  | [], acc => [String.mk acc.reverse]
  | c :: rest, acc =>
    if c == '/' then String.mk acc.reverse :: splitSlashAux rest []
    else splitSlashAux rest (c :: acc)

/-- JavaScript `s.split('/')`. -/
def splitSlash (s : String) : List String :=
  splitSlashAux s.data []

/-- The derivation loop of `deriveChildKey`: walk the segments in order,
skip empty ones, fail at the first invalid segment, and collect the
derivation indices that are handed to `node.derive` one by one (the
BIP32 derivation itself is the external library). -/
def parseSegments : List String → Except String (List Nat)
  | [] => .ok []
  | seg :: rest =>
    if seg = "" then parseSegments rest
    else
      match parsePathSegment seg with
      | none => .error ("Invalid derivation index: " ++ seg)
      | some idx =>
        match parseSegments rest with
        | .ok idxs => .ok (idx :: idxs)
        | .error e => .error e

/-- Path handling of `deriveChildKey`: strip `m/`, split on `/`, and run
the segment loop. -/
def parseDerivationPath (p : String) : Except String (List Nat) :=
  parseSegments (splitSlash (stripMPrefix p))

/-! ### verify_message (utility tool module) -/

/-- Result shape of the `verify_message` handler. -/
structure VerifyResult where
  valid : Bool
  error : Option String
  deriving Repr, DecidableEq

/-- The body of `verifyMessage` after the signature has been base64-decoded
by `Buffer.from(signature, 'base64')` (external Node behaviour, passed in
as the byte list `sigBytes`): a decoded length other than 65 reports an
invalid signature length, and every other input reports the
not-implemented message; `valid` is false in both cases. -/
def verifyMessageCore (sigBytes : List Nat) : VerifyResult :=
  if sigBytes.length ≠ 65 then
    ⟨false, some "Invalid signature length"⟩
  else
    ⟨false, some "Message verification not fully implemented - use specialized libraries"⟩

/-- `verifyMessage` from the utility tool module: resolves the network
argument (default testnet), throws on an unrecognized network, and
otherwise returns the stub result. -/
def verifyMessage (network : Option String) (sigBytes : List Nat) :
    Except String VerifyResult :=
  let networkName := jsOrDefault network "testnet"
  if validateNetwork networkName = false then
    .error ("Invalid network: " ++ networkName)
  else
    .ok (verifyMessageCore sigBytes)

/-! ### compile_script, nulldata branch (utility tool module) -/

/-- The `nulldata` case of `compileScript` (reached when no `scriptAsm` is
given and the network is valid): requires `data`, hex-decodes it, rejects
more than 80 bytes, and otherwise hands the bytes to
`bitcoin.payments.embed` (external library); the embedding returns the
decoded bytes on success.  A JavaScript `!args.data` check makes both a
missing and an empty `data` argument fail. -/
def compileNulldataScript (data : Option String) : Except String (List Nat) :=
  match data with
  | none => .error "Data required for OP_RETURN script"
  | some d =>
    if d = "" then .error "Data required for OP_RETURN script"
    else
      let bytes := jsHexDecode d
      if bytes.length > 80 then .error "OP_RETURN data too large (max 80 bytes)"
      else .ok bytes

end BitcoinMCP

namespace BitcoinMCP

/-- C9: `isValidHex` returns true iff every character is a hex digit and
the length is even; the empty string is valid. -/
theorem isValidHex_spec (s : String) :
    (isValidHex s = true ↔ ((∀ c ∈ s.data, isHexDigit c = true) ∧ s.length % 2 = 0)) ∧
    isValidHex "" = true := by
  refine ⟨?_, rfl⟩
  simp only [isValidHex, Bool.and_eq_true, List.all_eq_true, beq_iff_eq]

/-- C10: `getNetworkConfig name` succeeds iff `validateNetwork name` is
true, which holds exactly when the lowercased name is one of
`mainnet`, `testnet`, `regtest`; any other string yields an error and
`false`. -/
theorem network_resolution_round_trip (name : String) :
    ((getNetworkConfig name).isOk = true ↔ validateNetwork name = true) ∧
    (validateNetwork name = true ↔
      (jsToLower name = "mainnet" ∨ jsToLower name = "testnet" ∨
       jsToLower name = "regtest")) := by
  unfold getNetworkConfig validateNetwork
  by_cases h1 : jsToLower name = "mainnet" <;>
    by_cases h2 : jsToLower name = "testnet" <;>
      by_cases h3 : jsToLower name = "regtest" <;>
        simp [h1, h2, h3, Except.isOk, Except.toBool, List.contains_cons]

/-- C1: across the four static tool registries combined, every tool name
occurs exactly once, so the name-to-handler map built by merging the four
lists is unambiguous. -/
theorem tool_names_unique :
    allToolNames.Nodup ∧ ∀ n ∈ allToolNames, allToolNames.count n = 1 := by
  decide

/-- Witness for C1 at a concrete registry entry. -/
theorem tool_names_unique_witness :
    allToolNames.Nodup ∧ allToolNames.count "create_psbt" = 1 :=
  ⟨tool_names_unique.1, tool_names_unique.2 "create_psbt" (by decide)⟩

/-- C3: every string over the hex alphabet also matches the base64
detection pattern, so every valid-hex input takes the base64 branch of
the five PSBT handlers; contrapositively, the hex branch is reachable
only for inputs that are not hex. -/
theorem psbt_hex_routes_to_base64 (s : String)
    (h : ∀ c ∈ s.data, isHexDigit c = true) :
    base64ShapeMatch s = true ∧ psbtParseBranch s = .base64 := by
  have hsub : ∀ c ∈ s.data, isBase64Char c = true := by
    intro c hc
    have hx := h c hc
    unfold isHexDigit at hx
    simp only [Bool.or_eq_true, Bool.and_eq_true, decide_eq_true_eq] at hx
    have harith : (65 ≤ c.toNat ∧ c.toNat ≤ 90) ∨ (97 ≤ c.toNat ∧ c.toNat ≤ 122) ∨
        (48 ≤ c.toNat ∧ c.toNat ≤ 57) := by omega
    unfold isBase64Char
    simp only [Bool.or_eq_true, Bool.and_eq_true, decide_eq_true_eq]
    tauto
  have hne : ∀ c ∈ s.data, (c == '=') = false := by
    intro c hc
    have hx := h c hc
    unfold isHexDigit at hx
    simp only [beq_eq_false_iff_ne, ne_eq]
    intro hEq
    subst hEq
    exact absurd hx (by decide)
  have hmatch : base64ShapeMatch s = true := by
    unfold base64ShapeMatch
    cases hd : s.data.reverse with
    | nil => simp
    | cons a as =>
      have ha : a ∈ s.data := by
        have : a ∈ s.data.reverse := by
          rw [hd]; exact List.mem_cons_self a as
        exact List.mem_reverse.mp this
      have h1 := hne a ha
      simp [h1, List.all_eq_true]
      refine ⟨hsub a ha, ?_⟩
      intro c hc
      have : c ∈ s.data := by
        refine List.mem_reverse.mp ?_
        rw [hd]
        exact List.mem_cons_of_mem a hc
      exact hsub c this
  exact ⟨hmatch, by unfold psbtParseBranch; rw [hmatch]; rfl⟩

/-- Witness for C3 at a concrete hex input. -/
theorem psbt_hex_routes_to_base64_witness :
    base64ShapeMatch "deadbeef0f" = true ∧
    psbtParseBranch "deadbeef0f" = .base64 :=
  psbt_hex_routes_to_base64 "deadbeef0f" (by decide)

/-- C7: for every recognized network, `verify_message` never reports a
valid signature: a decoded signature of length other than 65 yields
`Invalid signature length`, and a 65-byte one yields the explanatory
not-implemented message. -/
theorem verify_message_stub (network : Option String) (sigBytes : List Nat)
    (h : validateNetwork (jsOrDefault network "testnet") = true) :
    ∃ r, verifyMessage network sigBytes = .ok r ∧ r.valid = false ∧
      (sigBytes.length ≠ 65 → r.error = some "Invalid signature length") ∧
      (sigBytes.length = 65 →
        r.error = some "Message verification not fully implemented - use specialized libraries") := by
  refine ⟨verifyMessageCore sigBytes, ?_, ?_, ?_, ?_⟩
  · simp [verifyMessage, h]
  · unfold verifyMessageCore
    by_cases h65 : sigBytes.length = 65 <;> simp [h65]
  · intro h65
    unfold verifyMessageCore
    rw [if_pos h65]
  · intro h65
    unfold verifyMessageCore
    rw [if_neg (by omega)]

/-- Witness for C7 at a concrete input. -/
theorem verify_message_stub_witness :
    validateNetwork (jsOrDefault none "testnet") = true ∧
    ∃ r, verifyMessage none [0] = .ok r ∧ r.valid = false ∧
      (([0] : List Nat).length ≠ 65 → r.error = some "Invalid signature length") ∧
      (([0] : List Nat).length = 65 →
        r.error = some "Message verification not fully implemented - use specialized libraries") :=
  ⟨by decide, verify_message_stub none [0] (by decide)⟩

/-- C8: `compile_script` with scriptType `nulldata` fails citing the
80-byte limit whenever the hex-decoded data exceeds 80 bytes, succeeds
for at most 80 bytes (in particular for exactly 80), and fails with a
`Data required` error when data is absent. -/
theorem opreturn_data_cap (d : String) :
    (compileNulldataScript none = .error "Data required for OP_RETURN script") ∧
    ((jsHexDecode d).length > 80 →
      compileNulldataScript (some d) = .error "OP_RETURN data too large (max 80 bytes)") ∧
    (d ≠ "" → (jsHexDecode d).length ≤ 80 →
      compileNulldataScript (some d) = .ok (jsHexDecode d)) := by
  refine ⟨rfl, ?_, ?_⟩
  · intro hlen
    have hne : d ≠ "" := by
      intro he
      subst he
      exact absurd hlen (by decide)
    simp [compileNulldataScript, hne, hlen]
  · intro hne hlen
    simp [compileNulldataScript, hne,
      show ¬((jsHexDecode d).length > 80) from by omega]

/-- `Math.ceil` of an integer divided by one is the integer itself. -/
theorem ceilDiv_one (x : Int) : ceilDiv x 1 = x := by
  simp [ceilDiv]

/-- C2: for positive integer inputs, outputs and feeRate,
`estimate_transaction_fee` succeeds with `vsize = ceil(weight / 4)` and
`fee = ceil(vsize * feeRate)`, with size and weight computed from the
fixed per-type byte costs (legacy 148; segwit 68 + 107 witness; taproot
68 + 65 witness; 34 per output; 10 base); non-positive inputs, outputs
or feeRate yield an error. -/
theorem fee_estimation_spec (i o r : Int) (ty : String)
    (hty : ty = "legacy" ∨ ty = "segwit" ∨ ty = "taproot") :
    (0 < i → 0 < o → 0 < r →
      estimateTransactionFee i o r (some ty) = .ok
        ⟨(if ty = "legacy" then 10 + i * 148 + o * 34
          else if ty = "segwit" then 10 + i * 68 + o * 34 - i * 107 + ceilDiv (i * 107) 4
          else 10 + i * 68 + o * 34 - i * 65 + ceilDiv (i * 65) 4),
         ceilDiv (if ty = "legacy" then (10 + i * 148 + o * 34) * 4
          else if ty = "segwit" then (10 + i * 68 + o * 34 - i * 107) * 4 + (i * 107 + 2)
          else (10 + i * 68 + o * 34 - i * 65) * 4 + (i * 65 + 2)) 4,
         (if ty = "legacy" then (10 + i * 148 + o * 34) * 4
          else if ty = "segwit" then (10 + i * 68 + o * 34 - i * 107) * 4 + (i * 107 + 2)
          else (10 + i * 68 + o * 34 - i * 65) * 4 + (i * 65 + 2)),
         ceilDiv (ceilDiv (if ty = "legacy" then (10 + i * 148 + o * 34) * 4
          else if ty = "segwit" then (10 + i * 68 + o * 34 - i * 107) * 4 + (i * 107 + 2)
          else (10 + i * 68 + o * 34 - i * 65) * 4 + (i * 65 + 2)) 4 * r) 1,
         r⟩) ∧
    ((i ≤ 0 ∨ o ≤ 0 ∨ r ≤ 0) → (estimateTransactionFee i o r (some ty)).isOk = false) := by
  constructor
  · intro hi ho hr
    have h1 : ¬(i ≤ 0 ∨ o ≤ 0) := by omega
    have h2 : ¬(r ≤ 0) := by omega
    rcases hty with h | h | h <;> subst h <;>
      simp [estimateTransactionFee, jsOrDefault, if_neg h1, if_neg h2, ceilDiv_one]
  · intro hbad
    by_cases hio : i ≤ 0 ∨ o ≤ 0
    · simp [estimateTransactionFee, if_pos hio, Except.isOk, Except.toBool]
    · have hr : r ≤ 0 := by tauto
      simp [estimateTransactionFee, if_neg hio, if_pos hr, Except.isOk, Except.toBool]

/-- Witness for C2 at the spec's own example `inputs:2, outputs:2,
feeRate:10, inputType:"segwit"`. -/
theorem fee_estimation_spec_witness :
    estimateTransactionFee 2 2 10 (some "segwit") = .ok
      ⟨(if "segwit" = "legacy" then (10 : Int) + 2 * 148 + 2 * 34
        else if "segwit" = "segwit" then 10 + 2 * 68 + 2 * 34 - 2 * 107 + ceilDiv (2 * 107) 4
        else 10 + 2 * 68 + 2 * 34 - 2 * 65 + ceilDiv (2 * 65) 4),
       ceilDiv (if "segwit" = "legacy" then ((10 : Int) + 2 * 148 + 2 * 34) * 4
        else if "segwit" = "segwit" then (10 + 2 * 68 + 2 * 34 - 2 * 107) * 4 + (2 * 107 + 2)
        else (10 + 2 * 68 + 2 * 34 - 2 * 65) * 4 + (2 * 65 + 2)) 4,
       (if "segwit" = "legacy" then ((10 : Int) + 2 * 148 + 2 * 34) * 4
        else if "segwit" = "segwit" then (10 + 2 * 68 + 2 * 34 - 2 * 107) * 4 + (2 * 107 + 2)
        else (10 + 2 * 68 + 2 * 34 - 2 * 65) * 4 + (2 * 65 + 2)),
       ceilDiv (ceilDiv (if "segwit" = "legacy" then ((10 : Int) + 2 * 148 + 2 * 34) * 4
        else if "segwit" = "segwit" then (10 + 2 * 68 + 2 * 34 - 2 * 107) * 4 + (2 * 107 + 2)
        else (10 + 2 * 68 + 2 * 34 - 2 * 65) * 4 + (2 * 65 + 2)) 4 * 10) 1,
       10⟩ :=
  (fee_estimation_spec 2 2 10 "segwit" (Or.inr (Or.inl rfl))).1
    (by decide) (by decide) (by decide)

/-- The fail-at-first-invalid-segment loop of `deriveChildKey` computes
exactly the monadic map of `parsePathSegment` over the non-empty
segments. -/
theorem parseSegments_toOption (l : List String) :
    (parseSegments l).toOption =
      (l.filter (fun s => s != "")).mapM parsePathSegment := by
  induction l with
  | nil => rfl
  | cons seg rest ih =>
    by_cases hseg : seg = ""
    · subst hseg
      simpa [parseSegments] using ih
    · have hne : (seg != "") = true := by simp [hseg]
      simp only [parseSegments, if_neg hseg, List.filter_cons, hne, if_true]
      cases hp : parsePathSegment seg with
      | none =>
        rw [List.mapM_cons, hp]
        rfl
      | some idx =>
        cases hr : parseSegments rest with
        | error e =>
          have h2 : List.mapM parsePathSegment (List.filter (fun s => s != "") rest) =
              (none : Option (List Nat)) := by
            rw [← ih, hr]; rfl
          rw [List.mapM_cons, hp, h2]
          rfl
        | ok idxs =>
          have h2 : List.mapM parsePathSegment (List.filter (fun s => s != "") rest) =
              some idxs := by
            rw [← ih, hr]; rfl
          rw [List.mapM_cons, hp, h2]
          rfl

/-- C6: `derive_child_key` strips a leading `m/`, splits on `/`, skips
empty segments, and interprets each segment (trailing `'` or `h`
removed) as a base-10 index, failing exactly when some segment parses to
`NaN`, a negative index, or an index at least `0x80000000`; the index
handed to the library is below `0x80000000` for plain segments and gets
`0x80000000` added for hardened ones (so it is always below `2^32`). -/
theorem derive_child_key_path_parsing (p : String) :
    ((parseDerivationPath p).toOption =
      ((splitSlash (stripMPrefix p)).filter (fun s => s != "")).mapM parsePathSegment) ∧
    (∀ seg : String, ∀ idx, parsePathSegment seg = some idx →
      ((idx < 0x80000000 ∧
          (lastIs seg singleQuote || lastIs seg 'h') = false) ∨
       (0x80000000 ≤ idx ∧ idx < 0x100000000 ∧
          (lastIs seg singleQuote || lastIs seg 'h') = true))) := by
  refine ⟨parseSegments_toOption _, ?_⟩
  intro seg idx hp
  cases hh : (lastIs seg singleQuote || lastIs seg 'h') with
  | false =>
    cases hj : jsParseIntDec seg with
    | none => simp [parsePathSegment, hh, hj] at hp
    | some index =>
      simp only [parsePathSegment, hh, hj, Bool.false_eq_true, if_false] at hp
      by_cases hc : index < 0 ∨ 0x80000000 ≤ index
      · rw [if_pos hc] at hp
        exact absurd hp (by simp)
      · rw [if_neg hc] at hp
        have hidx : index.toNat = idx := by simpa using hp
        left
        constructor
        · omega
        · rfl
  | true =>
    cases hj : jsParseIntDec (String.mk seg.data.dropLast) with
    | none => simp [parsePathSegment, hh, hj] at hp
    | some index =>
      simp only [parsePathSegment, hh, hj, if_true] at hp
      by_cases hc : index < 0 ∨ 0x80000000 ≤ index
      · rw [if_pos hc] at hp
        exact absurd hp (by simp)
      · rw [if_neg hc] at hp
        have hidx : index.toNat + 0x80000000 = idx := by simpa using hp
        right
        refine ⟨by omega, by omega, rfl⟩

/-- Witness for C6 at a concrete path with one hardened and two plain
segments. -/
theorem derive_child_key_path_parsing_witness :
    ((parseDerivationPath "m/44h/0/1").toOption =
      ((splitSlash (stripMPrefix "m/44h/0/1")).filter (fun s => s != "")).mapM
         parsePathSegment) ∧
    ((2147483692 < 0x80000000 ∧
        (lastIs "44h" singleQuote || lastIs "44h" 'h') = false) ∨
     (0x80000000 ≤ 2147483692 ∧ 2147483692 < 0x100000000 ∧
        (lastIs "44h" singleQuote || lastIs "44h" 'h') = true)) :=
  ⟨(derive_child_key_path_parsing "m/44h/0/1").1,
   (derive_child_key_path_parsing "m/44h/0/1").2 "44h" 2147483692 (by decide)⟩

/-- Witness for C8: 81 decoded bytes are rejected with the 80-byte-limit
message, 80 decoded bytes succeed. -/
theorem opreturn_data_cap_witness :
    compileNulldataScript (some (String.mk (List.replicate 162 '0'))) =
      .error "OP_RETURN data too large (max 80 bytes)" ∧
    compileNulldataScript (some (String.mk (List.replicate 160 '0'))) =
      .ok (jsHexDecode (String.mk (List.replicate 160 '0'))) :=
  ⟨(opreturn_data_cap _).2.1 (by decide),
   (opreturn_data_cap _).2.2 (by decide) (by decide)⟩

/-- The key-validation loop succeeds exactly when every supplied key
passes both per-key checks. -/
theorem validatePubkeys_isOk_iff (keys : List String) :
    (validatePubkeys keys).isOk = true ↔ ∀ k ∈ keys, pubkeyOk k = true := by
  induction keys with
  | nil => simp [validatePubkeys, Except.isOk, Except.toBool]
  | cons k rest ih =>
    cases hb : pubkeyFormatOk k with
    | false =>
      simp [validatePubkeys, hb, Except.isOk, Except.toBool, pubkeyOk]
    | true =>
      cases hl : ((jsHexDecode k).length != 33 && (jsHexDecode k).length != 65) with
      | true =>
        simp only [validatePubkeys, hb, Bool.not_true, Bool.false_eq_true, if_false, hl,
          if_true]
        simp only [Except.isOk, Except.toBool]
        constructor
        · intro h; exact absurd h (by simp)
        · intro h
          have := h k (List.mem_cons_self k rest)
          rw [pubkeyOk, hb] at this
          simp only [Bool.and_eq_true, Bool.or_eq_true, beq_iff_eq, Bool.true_and] at this
          simp only [Bool.and_eq_true, bne_iff_ne, ne_eq] at hl
          rcases this with h33 | h65
          · exact absurd h33 hl.1
          · exact absurd h65 hl.2
      | false =>
        simp only [validatePubkeys, hb, Bool.not_true, Bool.false_eq_true, if_false, hl]
        cases hv : validatePubkeys rest with
        | error e =>
          rw [hv] at ih
          simp only [Except.isOk, Except.toBool] at ih ⊢
          constructor
          · intro h; exact absurd h (by simp)
          · intro h
            have : (∀ x ∈ rest, pubkeyOk x = true) := by
              intro x hx; exact h x (List.mem_cons_of_mem k hx)
            exact absurd (ih.mpr this) (by simp)
        | ok pks =>
          rw [hv] at ih
          simp only [Except.isOk, Except.toBool] at ih ⊢
          constructor
          · intro _
            intro x hx
            rcases List.mem_cons.mp hx with hx | hx
            · subst hx
              have hl2 : ¬(jsHexDecode x).length = 33 → (jsHexDecode x).length = 65 := by
                simpa using hl
              by_cases h33 : (jsHexDecode x).length = 33
              · simp [pubkeyOk, hb, h33]
              · simp [pubkeyOk, hb, hl2 h33]
            · exact ih.mp trivial x hx
          · intro _; trivial

/-- C5 counterexample: the claim as stated is false.  `generatorKeyOdd`
is a 67-character hex-digit string, hence not valid hex of exactly 33 or
65 bytes (valid hex has even length: 66 or 130 characters), yet
`create_multisig` with `m = 1` and this single key passes every
validation check and proceeds without any range error, because
`Buffer.from(key, 'hex')` silently drops the unpaired trailing digit and
yields 33 bytes. -/
theorem create_multisig_claim_counterexample :
    (createMultisigChecked 1 [generatorKeyOdd] none none).isOk = true ∧
    isValidHex generatorKeyOdd = false ∧
    generatorKeyOdd.length = 67 := by
  decide

/-- C5 (amended): `create_multisig` (validation layer) succeeds iff
`1 ≤ m ≤ n ≤ 15` and every supplied key is a nonempty hex-digit string
whose `Buffer.from(_, 'hex')` decoding (a trailing unpaired digit is
dropped) yields exactly 33 or 65 bytes; `m ≤ 0` yields the
`Invalid m value` range error; on success the result reports `m` and
`n = publicKeys.length` as given. -/
theorem create_multisig_preconditions (m : Int) (keys : List String) :
    ((createMultisigChecked m keys none none).isOk = true ↔
      (1 ≤ m ∧ m ≤ (keys.length : Int) ∧ keys.length ≤ 15 ∧
       ∀ k ∈ keys, pubkeyOk k = true)) ∧
    (m ≤ 0 → createMultisigChecked m keys none none =
      .error "Invalid m value: must be between 1 and number of public keys") ∧
    (∀ info, createMultisigChecked m keys none none = .ok info →
      info.m = m ∧ info.n = keys.length) := by
  have hnet : validateNetwork "testnet" = true := by decide
  have hred : createMultisigChecked m keys none none =
      (if m ≤ 0 ∨ (keys.length : Int) < m then
        .error "Invalid m value: must be between 1 and number of public keys"
      else if keys.length < 1 ∨ 15 < keys.length then
        .error "Invalid number of public keys: must be between 1 and 15"
      else
        match validatePubkeys keys with
        | .error e => .error e
        | .ok pks => .ok ⟨m, keys.length, pks⟩) := by
    simp [createMultisigChecked, jsOrDefault, hnet]
  refine ⟨?_, ?_, ?_⟩
  · rw [hred]
    by_cases h1 : m ≤ 0 ∨ (keys.length : Int) < m
    · rw [if_pos h1]
      simp only [Except.isOk, Except.toBool]
      constructor
      · intro h; exact absurd h (by simp)
      · rintro ⟨hm1, hm2, -, -⟩
        omega
    · rw [if_neg h1]
      by_cases h2 : keys.length < 1 ∨ 15 < keys.length
      · rw [if_pos h2]
        simp only [Except.isOk, Except.toBool]
        constructor
        · intro h; exact absurd h (by simp)
        · rintro ⟨hm1, hm2, hn, -⟩
          omega
      · rw [if_neg h2]
        cases hv : validatePubkeys keys with
        | error e =>
          have hiff := validatePubkeys_isOk_iff keys
          rw [hv] at hiff
          simp only [Except.isOk, Except.toBool] at hiff ⊢
          constructor
          · intro h; exact absurd h (by simp)
          · rintro ⟨-, -, -, hk⟩
            exact absurd (hiff.mpr hk) (by simp)
        | ok pks =>
          have hiff := validatePubkeys_isOk_iff keys
          rw [hv] at hiff
          simp only [Except.isOk, Except.toBool] at hiff ⊢
          constructor
          · intro _
            exact ⟨by omega, by omega, by omega, hiff.mp trivial⟩
          · intro _
            trivial
  · intro hm
    rw [hred, if_pos (Or.inl hm)]
  · intro info hinfo
    rw [hred] at hinfo
    by_cases h1 : m ≤ 0 ∨ (keys.length : Int) < m
    · rw [if_pos h1] at hinfo
      exact absurd hinfo (by simp)
    · rw [if_neg h1] at hinfo
      by_cases h2 : keys.length < 1 ∨ 15 < keys.length
      · rw [if_pos h2] at hinfo
        exact absurd hinfo (by simp)
      · rw [if_neg h2] at hinfo
        cases hv : validatePubkeys keys with
        | error e =>
          rw [hv] at hinfo
          exact absurd hinfo (by simp)
        | ok pks =>
          rw [hv] at hinfo
          cases hinfo
          exact ⟨rfl, rfl⟩

/-- Witness for C5: `m = 0` is rejected with the `Invalid m value`
message. -/
theorem create_multisig_preconditions_witness :
    createMultisigChecked 0 ["02"] none none =
      .error "Invalid m value: must be between 1 and number of public keys" :=
  (create_multisig_preconditions 0 ["02"]).2.1 (by decide)

/-- A digit character's code point is 48 plus its value. -/
theorem digitChar_toNat (d : Nat) (h : d < 10) :
    (Nat.digitChar d).toNat = 48 + d := by
  interval_cases d <;> rfl

/-- Folding the decimal accumulator over `decDigits n` recovers `n`. -/
theorem foldl_decDigits (n : Nat) : ∀ a : Nat,
    List.foldl (fun acc c => 10 * acc + (c.toNat - 48)) a (decDigits n) =
      a * 10 ^ (decDigits n).length + n := by
  induction n using Nat.strong_induction_on with
  | _ n ih =>
    intro a
    by_cases h : n < 10
    · rw [decDigits, if_pos h]
      simp [List.foldl, digitChar_toNat n h]
      omega
    · rw [decDigits, if_neg h]
      have hlt : n / 10 < n := Nat.div_lt_self (by omega) (by omega)
      rw [List.foldl_append, ih (n / 10) hlt a]
      simp only [List.foldl, List.length_append, List.length_cons, List.length_nil,
        digitChar_toNat (n % 10) (Nat.mod_lt _ (by omega))]
      rw [pow_succ, ← mul_assoc]
      have hm : 10 * (n / 10) + n % 10 = n := Nat.div_add_mod n 10
      generalize a * 10 ^ (decDigits (n / 10)).length = X
      omega

/-- `decDigitsVal` inverts the rendering. -/
theorem decDigitsVal_decDigits (n : Nat) : decDigitsVal (decDigits n) = n := by
  have := foldl_decDigits n 0
  simpa [decDigitsVal] using this

/-- Core's fuelled digit renderer agrees with `decDigits` when the fuel
suffices. -/
theorem toDigitsCore_decDigits : ∀ (fuel n : Nat) (ds : List Char), n < fuel →
    Nat.toDigitsCore 10 fuel n ds = decDigits n ++ ds := by
  intro fuel
  induction fuel with
  | zero => intro n ds h; omega
  | succ fuel ih =>
    intro n ds h
    rw [Nat.toDigitsCore]
    by_cases h10 : n / 10 = 0
    · rw [if_pos h10]
      have hn : n < 10 := by omega
      rw [decDigits, if_pos hn, Nat.mod_eq_of_lt hn]
      rfl
    · rw [if_neg h10]
      have hlt : n / 10 < fuel := by
        have : n / 10 < n := Nat.div_lt_self (by omega) (by omega)
        omega
      rw [ih (n / 10) (Nat.digitChar (n % 10) :: ds) hlt]
      conv_rhs => rw [decDigits]
      rw [if_neg (show ¬n < 10 by omega)]
      simp

/-- `Nat.repr` is injective. -/
theorem natRepr_inj (m n : Nat) (h : Nat.repr m = Nat.repr n) : m = n := by
  have hm : Nat.toDigits 10 m = decDigits m := by
    have := toDigitsCore_decDigits (m + 1) m [] (by omega)
    simpa [Nat.toDigits] using this
  have hn : Nat.toDigits 10 n = decDigits n := by
    have := toDigitsCore_decDigits (n + 1) n [] (by omega)
    simpa [Nat.toDigits] using this
  have hdig : Nat.toDigits 10 m = Nat.toDigits 10 n := by
    have := congrArg String.data h
    simpa [Nat.repr, List.asString] using this
  have := congrArg decDigitsVal (hm ▸ hn ▸ hdig)
  rwa [decDigitsVal_decDigits, decDigitsVal_decDigits] at this

/-- `mkInputId` is injective on inputs whose txid hex has the canonical
64-character length. -/
theorem mkInputId_inj (i j : TxIn) (hi : i.txid.length = 64)
    (hj : j.txid.length = 64) (h : mkInputId i = mkInputId j) : i = j := by
  obtain ⟨ti, vi⟩ := i
  obtain ⟨tj, vj⟩ := j
  simp only [mkInputId] at h
  have hdata := congrArg String.data h
  simp only [String.data_append] at hdata
  have hi' : ti.data.length = 64 := hi
  have hj' : tj.data.length = 64 := hj
  have hlen : (ti.data ++ ":".data).length = (tj.data ++ ":".data).length := by
    simp only [List.length_append, hi', hj']
  obtain ⟨h1, h2⟩ := List.append_inj hdata hlen
  obtain ⟨h3, -⟩ := List.append_inj h1 (by simp [hi', hj'])
  have htx : ti = tj := congrArg String.mk h3
  have hvr : Nat.repr vi = Nat.repr vj := congrArg String.mk h2
  have hv : vi = vj := natRepr_inj _ _ hvr
  rw [htx, hv]

/-- The id-string list built by the duplicate check has no duplicates
exactly when the (txid, vout) pairs have none, for canonical 64-character
txids. -/
theorem mkInputId_nodup_iff (l : List TxIn) (h64 : ∀ i ∈ l, i.txid.length = 64) :
    (l.map mkInputId).Nodup ↔ l.Nodup := by
  constructor
  · exact List.Nodup.of_map _
  · intro h
    exact List.Nodup.map_on
      (fun x hx y hy hxy => mkInputId_inj x y (h64 x hx) (h64 y hy) hxy) h

/-- Membership in a conditional singleton list. -/
theorem mem_ite_singleton {α : Type} (x a : α) (P : Prop) [Decidable P] :
    (x ∈ (if P then [a] else ([] : List α))) ↔ (P ∧ x = a) := by
  by_cases h : P <;> simp [h]

/-- Membership in a negated conditional singleton list. -/
theorem mem_ite_nil_singleton {α : Type} (x a : α) (P : Prop) [Decidable P] :
    (x ∈ (if P then ([] : List α) else [a])) ↔ (¬P ∧ x = a) := by
  by_cases h : P <;> simp [h]

/-- Emptiness of a conditional singleton list. -/
theorem ite_singleton_eq_nil {α : Type} (a : α) (P : Prop) [Decidable P] :
    ((if P then [a] else ([] : List α)) = []) ↔ ¬P := by
  by_cases h : P <;> simp [h]

/-- Emptiness of a negated conditional singleton list. -/
theorem ite_nil_eq_nil {α : Type} (a : α) (P : Prop) [Decidable P] :
    ((if P then ([] : List α) else [a]) = []) ↔ P := by
  by_cases h : P <;> simp [h]

/-- Counting the constant of a constant map. -/
theorem count_map_const {α : Type} (l : List α) (s : String) :
    (l.map (fun _ => s)).count s = l.length := by
  induction l with
  | nil => rfl
  | cons x xs ih => simp [List.count_cons, ih]

/-- C4: for every parsed transaction, `broadcast_transaction` collects
the violations of all five checks (each check's message is present
exactly when its condition holds, with one message per negative output),
and reports `valid = true` exactly when the collected list is empty,
equivalently when the transaction has inputs, outputs, no duplicate
(txid, vout) input reference, no negative output value, and a total
output value within the 21-million-coin cap. -/
theorem broadcast_validation_spec (tx : ParsedTx)
    (h64 : ∀ i ∈ tx.ins, i.txid.length = 64) :
    ((validateParsedTx tx).1 = true ↔ (validateParsedTx tx).2 = []) ∧
    ("Transaction has no inputs" ∈ (validateParsedTx tx).2 ↔ tx.ins = []) ∧
    ("Transaction has no outputs" ∈ (validateParsedTx tx).2 ↔ tx.outs = []) ∧
    ("Transaction has duplicate inputs" ∈ (validateParsedTx tx).2 ↔ ¬tx.ins.Nodup) ∧
    ((validateParsedTx tx).2.count "Negative output value found" =
      (tx.outs.filter (fun o => o.value < 0)).length) ∧
    ("Total output exceeds maximum Bitcoin supply" ∈ (validateParsedTx tx).2 ↔
      (tx.outs.map TxOut.value).sum > MAX_MONEY) ∧
    ((validateParsedTx tx).1 = true ↔
      (tx.ins ≠ [] ∧ tx.outs ≠ [] ∧ tx.ins.Nodup ∧
       (∀ o ∈ tx.outs, 0 ≤ o.value) ∧ (tx.outs.map TxOut.value).sum ≤ MAX_MONEY)) := by
  have hdup := mkInputId_nodup_iff tx.ins h64
  simp only [validateParsedTx]
  refine ⟨?_, ?_, ?_, ?_, ?_, ?_, ?_⟩
  · simp [List.isEmpty_iff]
  · simp [List.mem_append, mem_ite_singleton, mem_ite_nil_singleton,
      List.length_eq_zero]
  · simp [List.mem_append, mem_ite_singleton, mem_ite_nil_singleton,
      List.length_eq_zero]
  · simp [List.mem_append, mem_ite_singleton, mem_ite_nil_singleton, hdup]
  · by_cases hA : tx.ins.length = 0 <;> by_cases hB : tx.outs.length = 0 <;>
      by_cases hC : (tx.ins.map mkInputId).Nodup <;>
        by_cases hF : (tx.outs.map TxOut.value).sum > MAX_MONEY <;>
          simp [hA, hB, hC, hF, List.count_append, count_map_const, List.count_cons]
  · simp [List.mem_append, mem_ite_singleton, mem_ite_nil_singleton]
  · simp only [List.isEmpty_iff, List.append_eq_nil, ite_singleton_eq_nil,
      ite_nil_eq_nil, hdup, List.length_eq_zero, List.map_eq_nil_iff,
      List.filter_eq_nil_iff]
    constructor
    · rintro ⟨⟨⟨⟨h1, h2⟩, h3⟩, h4⟩, h5⟩
      have h5' : ¬((tx.outs.map TxOut.value).sum > MAX_MONEY) := h5
      refine ⟨h1, h2, h3, ?_, by omega⟩
      intro o ho
      have := h4 o ho
      simp at this
      omega
    · rintro ⟨h1, h2, h3, h4, h5⟩
      refine ⟨⟨⟨⟨h1, h2⟩, h3⟩, ?_⟩, by intro hgt; omega⟩
      intro o ho
      have := h4 o ho
      simp
      omega

/-- Witness for C4 at a transaction with a duplicate input and one
output. -/
theorem broadcast_validation_spec_witness :
    (validateParsedTx ⟨[⟨String.mk (List.replicate 64 'a'), 0⟩,
                        ⟨String.mk (List.replicate 64 'a'), 0⟩], [⟨1⟩]⟩).1 = true ↔
    (validateParsedTx ⟨[⟨String.mk (List.replicate 64 'a'), 0⟩,
                        ⟨String.mk (List.replicate 64 'a'), 0⟩], [⟨1⟩]⟩).2 = [] :=
  (broadcast_validation_spec _ (by decide)).1

end BitcoinMCP
